import Mathlib

/-!
Verification development for the CuseAI crawl-and-retrieve platform
(AI shopping assistant for local businesses).

The repository ships the embeddable chat widget (a JavaScript IIFE) and the
marketing/dashboard pages; the backend core (crawler, catalog store, indexer,
retrieval engine, usage gate) is described by the design document but its
Python sources are not part of this excerpt.  Accordingly:

* the widget's request building and response rendering are embedded directly
  from the widget IIFE (`backend/README.md`, widget section);
* the core pipeline (catalog upsert/diff, indexer, query understanding,
  retrieval & ranking, usage gate, generic-HTML extraction) is modelled from
  the specification's component contracts.
-/

namespace CuseAI

/-! ## JavaScript value model for the widget

The widget manipulates untyped JSON values (`data.answer`, `p.url`,
`p.in_stock === false`, truthiness tests).  We model the JavaScript values the
widget can observe. -/

inductive JVal where
  | jnull
  | jundef
  | jbool (b : Bool)
  | jnum (n : Int)
  | jstr (s : String)
  deriving Repr, DecidableEq

/-- JavaScript truthiness of a value, as used by `if (p.url)` and
`data.answer || fallback` in the widget.  (`NaN` is not representable in the
integer model.) -/
def JVal.truthy : JVal → Bool
  | .jnull => false
  | .jundef => false
  | .jbool b => b
  | .jnum n => decide (n ≠ 0)
  | .jstr s => decide (s ≠ "")

/-- String interpolation of a JavaScript value (the widget concatenates
values into the chat HTML). -/
def JVal.display : JVal → String
  | .jnull => "null"
  | .jundef => "undefined"
  | .jbool b => cond b "true" "false"
  | .jnum n => toString n
  | .jstr s => s

/-! ## The widget client (embedded from the widget IIFE in backend/README.md)

Request: `body: JSON.stringify({question: question, k: 5})` posted to
`/agent/ask`.
Answer rendering: `(data.answer || 'Sorry, I could not find an answer.')`.
Product rendering: `data.products.forEach(p => { if (p.url) { const stockText =
p.in_stock === false ? ' (Out of Stock)' : ''; ... p.name + ' - $' + p.price +
stockText ... } })`. -/

/-- The JSON body the widget posts to the `/agent/ask` endpoint, as an ordered
field list: `{question: question, k: 5}`. -/
def widgetAskBody (question : String) : List (String × JVal) :=
  [("question", JVal.jstr question), ("k", JVal.jnum 5)]

/-- The fallback answer text hard-coded in the widget. -/
def widgetFallback : String := "Sorry, I could not find an answer."

/-- Field lookup on a JSON object modelled as an ordered field list
(JavaScript property access `data.answer`). -/
def jlookup (data : List (String × JVal)) (key : String) : Option JVal :=
  (data.find? (fun kv => kv.1 = key)).map Prod.snd

/-- The answer text the widget displays:
`(data.answer || 'Sorry, I could not find an answer.')`. -/
def widgetDisplayedAnswer (data : List (String × JVal)) : String :=
  match jlookup data "answer" with
  | some v => if v.truthy then v.display else widgetFallback
  | none => widgetFallback

/-- The fields of one element of `data.products` that the widget reads. -/
structure RespProduct where
  name : JVal
  price : JVal
  url : JVal
  in_stock : JVal
  deriving Repr, DecidableEq

/-- `' (Out of Stock)'` marker: appended exactly when `p.in_stock === false`
(JavaScript strict equality). -/
def stockText (p : RespProduct) : String :=
  if p.in_stock = JVal.jbool false then " (Out of Stock)" else ""

/-- The text of one rendered product link:
`p.name + ' - $' + p.price + stockText`. -/
def renderItem (p : RespProduct) : String :=
  p.name.display ++ " - $" ++ p.price.display ++ stockText p

/-- The products the widget actually lists: the `forEach` body is guarded by
`if (p.url)`, so exactly the products with a truthy `url` are rendered. -/
def renderedProducts (ps : List RespProduct) : List RespProduct :=
  ps.filter (fun p => p.url.truthy)

/-- The rendered `<li>` texts for a response's product array. -/
def renderedItems (ps : List RespProduct) : List String :=
  (renderedProducts ps).map renderItem

/-! ## Core data model

Modelled from the spec: the backend core (Catalog Store, Indexer, Query
Understanding, Retrieval & Ranking, Usage Gate) is not part of this source
excerpt; its data model follows §3 of the design document. -/

/-- Modelled from the spec: a Product record (§3) — stable identity derived
from URL/SKU, name, description, currency-agnostic numeric price (optional:
generic-HTML extraction may leave it absent), sparse attributes, stock status
(in/out/unknown as `Option Bool`), canonical URL and content hash for change
detection. -/
structure Product where
  identity : String
  name : String
  descr : String
  price : Option Nat
  currency : String
  categories : List String
  color : Option String
  size : Option String
  inStock : Option Bool
  url : String
  contentHash : Nat
  deriving Repr, DecidableEq

/-- Modelled from the spec: the structured filter predicates produced by
Query Understanding (§4.5). -/
structure Filters where
  price_max : Option Nat := none
  price_min : Option Nat := none
  category : Option String := none
  color : Option String := none
  size : Option String := none
  in_stock_only : Bool := false
  deriving Repr, DecidableEq

/-- Modelled from the spec: the normalized attribute projection the Indexer
derives for exact/range filtering (§4.4): numeric price, lowercased
color/category/size tokens, stock status. -/
structure AttrProj where
  price : Option Nat
  color : Option String
  categories : List String
  size : Option String
  inStock : Option Bool
  deriving Repr, DecidableEq

/-- ASCII lowercasing (kernel-reducible stand-in for locale lowercasing). -/
def charLower (c : Char) : Char :=
  if 'A' ≤ c ∧ c ≤ 'Z' then Char.ofNat (c.toNat + 32) else c

def strLower (s : String) : String := ⟨s.data.map charLower⟩

/-- Modelled from the spec: the normalized attribute projection of a Product
(lowercase tokens, numeric price). -/
def attrProj (p : Product) : AttrProj :=
  { price := p.price
    color := p.color.map strLower
    categories := p.categories.map strLower
    size := p.size.map strLower
    inStock := p.inStock }

/-- Modelled from the spec: conjunctive hard-filter check against the
attribute projection (§4.6 step 1).  A stated price bound requires a known
price inside the bound; a stated color/size/category filter excludes on an
explicit mismatch (a product with the attribute absent is not an explicit
mismatch); `in_stock_only` excludes explicitly out-of-stock products. -/
def matchesFilters (f : Filters) (a : AttrProj) : Bool :=
  (match f.price_max, a.price with
   | none, _ => true
   | some m, some pr => decide (pr ≤ m)
   | some _, none => false) &&
  (match f.price_min, a.price with
   | none, _ => true
   | some m, some pr => decide (m ≤ pr)
   | some _, none => false) &&
  (match f.color, a.color with
   | none, _ => true
   | some c, some pc => decide (pc = strLower c)
   | some _, none => true) &&
  (match f.size, a.size with
   | none, _ => true
   | some c, some pc => decide (pc = strLower c)
   | some _, none => true) &&
  (match f.category, a.categories with
   | none, _ => true
   | some _, [] => true
   | some c, cs => cs.contains (strLower c)) &&
  (!f.in_stock_only || !(a.inStock = some false : Bool))

/-- Modelled from the spec: system configuration — the black-box embedding
collaborator `embed(text) -> vector`, the staleness grace threshold
(configurable number of consecutive unseen crawls, §4.3) and the
out-of-stock soft penalty (§4.6 step 3). -/
structure Config where
  embed : String → List Int
  grace : Nat
  stockPenalty : Int

/-! ## Catalog Store (modelled from the spec, §4.3)

Products are keyed by stable identity in an arena-like store (§9); the store
is kept ordered by identity so that the final catalog state is canonical —
the spec requires the final Diff to be commutative for ranking purposes. -/

/-- Modelled from the spec: a Product as stored by the Catalog Store, with
its consecutive-unseen-crawl counter, stale flag and last-update stamp. -/
structure StoredProduct where
  prod : Product
  unseenCount : Nat
  stale : Bool
  updatedAt : Nat
  deriving Repr, DecidableEq

abbrev Catalog := List StoredProduct

/-- Point lookup by Business-scoped identity. -/
def lookupId (cat : Catalog) (i : String) : Option StoredProduct :=
  cat.find? (fun s => s.prod.identity = i)

/-- Modelled from the spec: upsert of a single candidate Product (§4.3).
Candidates are matched to existing Products by identity; an identity match
with an unchanged content hash leaves the record (and its update stamp)
alone; a changed hash replaces the record and stamps it updated `now`; an
unmatched candidate is inserted at its identity-ordered position.  A seen
Product has its unseen counter reset and its stale flag cleared. -/
def upsert1 (now : Nat) (cat : Catalog) (c : Product) : Catalog :=
  match cat with
  | [] => [{ prod := c, unseenCount := 0, stale := false, updatedAt := now }]
  | s :: rest =>
    if c.identity = s.prod.identity then
      (if s.prod.contentHash = c.contentHash then
        { prod := s.prod, unseenCount := 0, stale := false, updatedAt := s.updatedAt }
       else
        { prod := c, unseenCount := 0, stale := false, updatedAt := now }) :: rest
    else if c.identity < s.prod.identity then
      { prod := c, unseenCount := 0, stale := false, updatedAt := now } :: s :: rest
    else
      s :: upsert1 now rest c

/-- Upsert of a whole candidate batch, in page-processing order. -/
def upsertAll (now : Nat) (cat : Catalog) (cands : List Product) : Catalog :=
  cands.foldl (upsert1 now) cat

/-- Modelled from the spec: per-record staleness update (§4.3).  A stored
Product not seen in this crawl has its consecutive-unseen counter bumped and
is marked stale once unseen across `grace` consecutive crawls. -/
def bumpFun (grace : Nat) (seen : List String) (s : StoredProduct) : StoredProduct :=
  if s.prod.identity ∈ seen then s
  else { prod := s.prod, unseenCount := s.unseenCount + 1,
         stale := s.stale || decide (grace ≤ s.unseenCount + 1),
         updatedAt := s.updatedAt }

/-- Modelled from the spec: end-of-crawl staleness pass (§4.3).  Existing
Products are updated in place (never deleted). -/
def bumpUnseen (grace : Nat) (seen : List String) (cat : Catalog) : Catalog :=
  cat.map (bumpFun grace seen)

/-- One crawl's effect on the catalog: ordered upserts, then the staleness
pass over Products unseen in this crawl. -/
def crawlCatalog (cfg : Config) (now : Nat) (cat : Catalog)
    (cands : List Product) : Catalog :=
  bumpUnseen cfg.grace (cands.map Product.identity) (upsertAll now cat cands)

/-! ## Diff-producing crawl (modelled from the spec, §4.3)

`upsert(business, candidate_products) -> Diff{created, updated, unchanged,
retired}` — candidates are classified against the store as processed. -/

/-- Modelled from the spec: the Diff returned by a crawl's upsert. -/
structure Diff where
  created : List String := []
  updated : List String := []
  unchanged : List String := []
  retired : List String := []
  deriving Repr, DecidableEq

def emptyDiff : Diff := {}

/-- One step of the diff-producing upsert fold: classify the candidate
against the current store (absent → created; hash change → updated;
otherwise unchanged), then upsert it. -/
def diffStep (now : Nat) (acc : Catalog × Diff) (c : Product) : Catalog × Diff :=
  let cat := acc.1
  let d := acc.2
  let d' :=
    match lookupId cat c.identity with
    | none => { d with created := d.created ++ [c.identity] }
    | some s =>
      if s.prod.contentHash = c.contentHash then
        { d with unchanged := d.unchanged ++ [c.identity] }
      else
        { d with updated := d.updated ++ [c.identity] }
  (upsert1 now cat c, d')

/-- One crawl against the Catalog Store: ordered diffed upserts followed by
the staleness pass; `retired` records the Products that became stale in this
crawl. -/
def crawlDiff (cfg : Config) (now : Nat) (cat : Catalog)
    (cands : List Product) : Catalog × Diff :=
  let fd := cands.foldl (diffStep now) (cat, emptyDiff)
  let seen := cands.map Product.identity
  let newlyStale :=
    (fd.1.filter (fun s =>
      !(s.prod.identity ∈ seen : Bool) && !s.stale
        && decide (cfg.grace ≤ s.unseenCount + 1))).map (fun s => s.prod.identity)
  (bumpUnseen cfg.grace seen fd.1, { fd.2 with retired := newlyStale })

/-! ## Indexer (modelled from the spec, §4.4)

One IndexEntry per Product, keyed by the same identity plus a content-hash
guard; holds the embedding vector.  Re-embedding is keyed by content hash. -/

/-- Modelled from the spec: an IndexEntry — embedding vector with the content
hash of the Product state it was computed from. -/
structure IndexEntry where
  hash : Nat
  vector : List Int
  deriving Repr, DecidableEq

abbrev Index := List (String × IndexEntry)

def lookupIx (ix : Index) (i : String) : Option IndexEntry :=
  (ix.find? (fun e => e.1 = i)).map Prod.snd

/-- Modelled from the spec: (re-)embed a Product — the entry's vector is the
black-box embedding of the combined name+description text, guarded by the
Product's current content hash. -/
def reembedEntry (cfg : Config) (p : Product) : IndexEntry :=
  { hash := p.contentHash, vector := cfg.embed (p.name ++ " " ++ p.descr) }

/-- Store an entry under an identity (replacing any previous entry). -/
def insertIx (ix : Index) (i : String) (e : IndexEntry) : Index :=
  match ix with
  | [] => [(i, e)]
  | kv :: rest => if kv.1 = i then (i, e) :: rest else kv :: insertIx rest i e

/-- Modelled from the spec: `reindex(product)` applied to the identities a
Diff flags as created or updated; returns the new index and the number of
embedding calls issued. -/
def reindexIds (cfg : Config) (cat : Catalog) (ix : Index) :
    List String → Index × Nat
  | [] => (ix, 0)
  | i :: rest =>
    match lookupId cat i with
    | none => reindexIds cfg cat ix rest
    | some s =>
      let r := reindexIds cfg cat (insertIx ix i (reembedEntry cfg s.prod)) rest
      (r.1, r.2 + 1)

/-- Modelled from the spec: the IndexEntry actually used when serving a query
for a Product (§4.4, §7).  A lookup whose guard hash predates the Product's
current content hash is an `IndexStalenessViolation`: fatal only to that
entry's use — a forced re-embed is served instead of the stale vector. -/
def entryUsed (cfg : Config) (ix : Index) (p : Product) : IndexEntry :=
  match lookupIx ix p.identity with
  | some e => if e.hash = p.contentHash then e else reembedEntry cfg p
  | none => reembedEntry cfg p

/-- Modelled from the spec: full system state persisted by the core. -/
structure SysState where
  catalog : Catalog
  index : Index
  deriving Repr

/-- Modelled from the spec: one full crawl — diffed upsert into the Catalog
Store, then incremental re-embedding of exactly the created/updated
Products; returns the new state, the Diff and the number of embedding calls
issued. -/
def crawlFull (cfg : Config) (now : Nat) (st : SysState)
    (cands : List Product) : SysState × Diff × Nat :=
  let cd := crawlDiff cfg now st.catalog cands
  let ri := reindexIds cfg cd.1 st.index (cd.2.created ++ cd.2.updated)
  (⟨cd.1, ri.1⟩, cd.2, ri.2)

/-! ## Retrieval & Ranking Engine (modelled from the spec, §4.6) -/

/-- Integer stand-in for the black-box similarity measure (dot product of
embedding vectors). -/
def dotScore : List Int → List Int → Int
  | [], _ => 0
  | _, [] => 0
  | a :: as_, b :: bs => a * b + dotScore as_ bs

/-- Modelled from the spec: base semantic score with the deterministic
out-of-stock soft penalty (down-weighted, not excluded). -/
def adjScore (cfg : Config) (ix : Index) (q : String) (s : StoredProduct) : Int :=
  dotScore (cfg.embed q) (entryUsed cfg ix s.prod).vector
    - (if s.prod.inStock = some false then cfg.stockPenalty else 0)

/-- Modelled from the spec: the deterministic rank order (§4.6 step 3) —
higher score first; exact numeric ties break by most-recently-updated
Product, then by stable identity ordering. -/
def rankLE (a b : StoredProduct × Int) : Bool :=
  if a.2 = b.2 then
    if a.1.updatedAt = b.1.updatedAt then
      decide (a.1.prod.identity ≤ b.1.prod.identity)
    else decide (b.1.updatedAt < a.1.updatedAt)
  else decide (b.2 < a.2)

def RankRel (a b : StoredProduct × Int) : Prop := rankLE a b = true

instance : DecidableRel RankRel := fun a b =>
  inferInstanceAs (Decidable (rankLE a b = true))

/-- Modelled from the spec: `search(business, filters, semantic_query, k)` —
conjunctive hard filtering against the attribute projection (stale Products
are excluded from search results), scoring of the survivors, deterministic
ranking, truncation to `k`. -/
def search (cfg : Config) (st : SysState) (f : Filters) (q : String)
    (k : Nat) : List (StoredProduct × Int) :=
  (List.insertionSort RankRel
    ((st.catalog.filter
        (fun s => !s.stale && matchesFilters f (attrProj s.prod))).map
      (fun s => (s, adjScore cfg st.index q s)))).take k

/-! ## Usage/Tier Gate (modelled from the spec, §4.8) -/

/-- Modelled from the spec: the two explicit outcomes of the gate —
`QuotaExceeded` is a distinct, user-facing condition, not a failure. -/
inductive GateOutcome where
  | allowed
  | quotaExceeded
  deriving Repr, DecidableEq

/-- Modelled from the spec:
`check_and_increment(business, kind, amount) -> Allowed | QuotaExceeded`
over a per-Business usage counter against the tier limit. -/
def check_and_increment (used limit amount : Nat) : GateOutcome × Nat :=
  if used + amount ≤ limit then (GateOutcome.allowed, used + amount)
  else (GateOutcome.quotaExceeded, used)

/-- Modelled from the spec: walk the candidate list, admitting every
candidate matching an existing Product freely and gating each net-new
candidate through `check_and_increment` against the tier product cap;
gated-out candidates are deferred, never dropped. -/
def gateSplit (used cap : Nat) (cat : Catalog) :
    List Product → List Product × List Product
  | [] => ([], [])
  | c :: rest =>
    if (lookupId cat c.identity).isSome then
      let r := gateSplit used cap cat rest
      (c :: r.1, r.2)
    else
      match check_and_increment used cap 1 with
      | (GateOutcome.allowed, used') =>
        let r := gateSplit used' cap cat rest
        (c :: r.1, r.2)
      | (GateOutcome.quotaExceeded, _) =>
        let r := gateSplit used cap cat rest
        (r.1, c :: r.2)

/-- Modelled from the spec: the explicit, distinct outcomes of a crawl —
success, success with quota exceeded (carrying the deferred remainder), and
`CrawlJobFailure`; never coerced into one another. -/
inductive CrawlOutcome where
  | ok (d : Diff)
  | okQuotaExceeded (d : Diff) (deferred : List Product)
  | failed (errors : Nat)
  deriving Repr, DecidableEq

/-- Modelled from the spec: a crawl under the tier product cap — upsert up to
the cap, mark the remainder deferred, and surface `QuotaExceeded` as a
distinct outcome. -/
def crawlWithCap (cfg : Config) (now : Nat) (used cap : Nat) (cat : Catalog)
    (cands : List Product) : Catalog × CrawlOutcome :=
  let g := gateSplit used cap cat cands
  let cd := crawlDiff cfg now cat g.1
  (cd.1, if g.2.isEmpty then CrawlOutcome.ok cd.2
         else CrawlOutcome.okQuotaExceeded cd.2 g.2)

/-! ## Generic-HTML extraction (modelled from the spec, §4.2)

Best-effort per-product-page heuristics: price pattern matching and title
extraction; absent price is permitted, absent name discards the candidate. -/

/-- Modelled from the spec: the heuristically relevant fields of a fetched
generic-HTML product page. -/
structure Page where
  url : String
  titleText : Option String
  priceText : Option String
  descText : Option String
  deriving Repr, DecidableEq

/-- Digit-sequence parser shared by the price heuristics. -/
def digitsToNat (l : List Char) : Option Nat :=
  if !l.isEmpty && l.all Char.isDigit then
    some (l.foldl (fun n c => n * 10 + (c.toNat - 48)) 0)
  else none

/-- Modelled from the spec: price pattern matching — an optional dollar sign
followed by digits; anything else is malformed and yields no price. -/
def parsePriceText (s : String) : Option Nat :=
  match s.data with
  | '$' :: rest => digitsToNat rest
  | l => digitsToNat l

/-- Modelled from the spec: title/name extraction — an absent or empty title
yields no name. -/
def extractName (pg : Page) : Option String :=
  match pg.titleText with
  | some t => if t = "" then none else some t
  | none => none

/-- Simple content fingerprint of the extracted fields (change detection). -/
def strHash (s : String) : Nat :=
  s.data.foldl (fun h c => h * 31 + c.toNat) 7

/-- Modelled from the spec: the generic-HTML extraction heuristic for one
product page — a candidate with a missing price is permitted; a page with no
extractable name yields no candidate. -/
def extractGeneric (pg : Page) : Option Product :=
  match extractName pg with
  | none => none
  | some n =>
    let pr := pg.priceText.bind parsePriceText
    some
      { identity := pg.url
        name := n
        descr := pg.descText.getD ""
        price := pr
        currency := "USD"
        categories := []
        color := none
        size := none
        inStock := none
        url := pg.url
        contentHash :=
          strHash n * 1000003 + strHash (pg.descText.getD "") * 31
            + (match pr with | some v => v + 1 | none => 0) }

/-! ## Query Understanding (modelled from the spec, §4.5)

Pattern rules for price bounds and a controlled color vocabulary; everything
unmatched stays in the residual semantic query. -/

def colorVocab : List String :=
  ["black", "white", "red", "blue", "green", "brown"]

/-- Whitespace tokenizer over the question text. -/
def splitSpacesAux : List Char → List Char → List String
  | [], acc => if acc.isEmpty then [] else [String.mk acc.reverse]
  | c :: rest, acc =>
    if c = ' ' then
      if acc.isEmpty then splitSpacesAux rest []
      else String.mk acc.reverse :: splitSpacesAux rest []
    else splitSpacesAux rest (c :: acc)

def tokenize (s : String) : List String := splitSpacesAux s.data []

/-- `$N` token → `N`. -/
def dollarNat (w : String) : Option Nat :=
  match w.data with
  | '$' :: rest => digitsToNat rest
  | _ => none

/-- Modelled from the spec: scan the question tokens, extracting price bounds
(`under $N` / `over $N`), colors from the controlled vocabulary and the
`in stock` phrase; unmatched tokens remain in the residual semantic query. -/
def extractFilters (f : Filters) : List String → Filters × List String
  | [] => (f, [])
  | [w] =>
    if colorVocab.contains (strLower w) then ({ f with color := some (strLower w) }, [])
    else (f, [w])
  | w :: p :: rest =>
    if colorVocab.contains (strLower w) then
      extractFilters { f with color := some (strLower w) } (p :: rest)
    else if strLower w = "under" then
      match dollarNat p with
      | some n => extractFilters { f with price_max := some n } rest
      | none =>
        let r := extractFilters f (p :: rest)
        (r.1, w :: r.2)
    else if strLower w = "over" then
      match dollarNat p with
      | some n => extractFilters { f with price_min := some n } rest
      | none =>
        let r := extractFilters f (p :: rest)
        (r.1, w :: r.2)
    else if strLower w = "in" && strLower p = "stock" then
      extractFilters { f with in_stock_only := true } rest
    else
      let r := extractFilters f (p :: rest)
      (r.1, w :: r.2)

/-- Modelled from the spec: `parse(question) -> {filters, semantic_query}`. -/
def parseQuestion (q : String) : Filters × String :=
  let r := extractFilters {} (tokenize q)
  (r.1, String.intercalate " " r.2)

/-! ## Ask-question core contract (modelled from the spec, §6) -/

/-- Modelled from the spec: one product record of the ask-question response:
`{identity, name, price, currency, url, in_stock}`. -/
structure ProductCard where
  identity : String
  name : String
  price : Option Nat
  currency : String
  url : String
  in_stock : Option Bool
  deriving Repr, DecidableEq

def toCard (r : StoredProduct × Int) : ProductCard :=
  { identity := r.1.prod.identity
    name := r.1.prod.name
    price := r.1.prod.price
    currency := r.1.prod.currency
    url := r.1.prod.url
    in_stock := r.1.prod.inStock }

/-- Modelled from the spec: the ask-question response shape
`{answer_text, products, filters_applied}`. -/
structure AskResponse where
  answer_text : String
  products : List ProductCard
  filters_applied : Filters
  deriving Repr, DecidableEq

/-- Modelled from the spec: the ask-question core interface — input
`{business_id, question, k}`, pipeline Query Understanding → Retrieval &
Ranking, output `{answer_text, products, filters_applied}`. -/
def askQuestion (cfg : Config) (st : SysState) (business_id : String)
    (question : String) (k : Nat) : AskResponse :=
  let pq := parseQuestion question
  let rs := search cfg st pq.1 pq.2 k
  { answer_text :=
      if rs.isEmpty then "No matching products found for " ++ business_id ++ "."
      else "Found " ++ toString rs.length ++ " matching products."
    products := rs.map toCard
    filters_applied := pq.1 }

/-! ## Theorems -/

/-- C9: in the widget's rendering of an ask-question response, a returned
product is listed in the chat if and only if its `url` field is truthy; a
returned product without a truthy `url` is silently omitted from the
displayed Products list. -/
theorem widget_lists_product_iff_truthy_url (ps : List RespProduct)
    (p : RespProduct) :
    p ∈ renderedProducts ps ↔ p ∈ ps ∧ p.url.truthy = true := by
  simp [renderedProducts, List.mem_filter]

/-- C10: the widget appends the " (Out of Stock)" marker exactly when the
product's `in_stock` field is strictly equal to `false`; any other value
(missing, null, true, non-boolean) yields no marker, indistinguishable from
in-stock. -/
theorem widget_stock_marker_iff_strict_false (p : RespProduct) :
    (stockText p = " (Out of Stock)" ↔ p.in_stock = JVal.jbool false)
    ∧ (stockText p = "" ↔ p.in_stock ≠ JVal.jbool false) := by
  by_cases h : p.in_stock = JVal.jbool false
  · rw [stockText, if_pos h]
    exact ⟨⟨fun _ => h, fun _ => rfl⟩,
      ⟨fun hs => absurd hs (by decide), fun hs => absurd h hs⟩⟩
  · rw [stockText, if_neg h]
    exact ⟨⟨fun hs => absurd hs.symm (by decide), fun hs => absurd hs h⟩,
      ⟨fun _ => h, fun _ => rfl⟩⟩

/-- C2 counterexample: the widget does not exchange exactly the spec's
ask-question shape with `/agent/ask` — its request body has no `business_id`
field, and a response carrying the answer under the spec's `answer_text` key
is rendered as the fallback message because the widget reads `data.answer`. -/
theorem widget_ask_shape_counterexample :
    "business_id" ∉ (widgetAskBody "black boots under $150").map Prod.fst
    ∧ widgetDisplayedAnswer
        [("answer_text", JVal.jstr "The black boot is $120.")]
      = "Sorry, I could not find an answer." := by
  constructor
  · decide
  · rfl

/-- C2 (amended): the core ask-question interface takes
`{business_id, question, k}` and returns
`{answer_text, products, filters_applied}`; the widget client, however,
posts only `{question, k}` (with `k` fixed to 5 and no `business_id`) to the
`/agent/ask` endpoint and reads the `answer` field of the response (the
spec's `answer_text` key would render the fallback message). -/
theorem ask_contract_and_widget_shape (question a s : String) :
    (widgetAskBody question).map Prod.fst = ["question", "k"]
    ∧ jlookup (widgetAskBody question) "k" = some (JVal.jnum 5)
    ∧ widgetDisplayedAnswer [("answer_text", JVal.jstr a)] = widgetFallback
    ∧ widgetDisplayedAnswer [("answer", JVal.jstr s)]
        = (if s = "" then widgetFallback else s)
    ∧ ∀ (cfg : Config) (st : SysState) (business_id : String) (k : Nat),
        (askQuestion cfg st business_id question k).filters_applied
          = (parseQuestion question).1 := by
  refine ⟨rfl, rfl, rfl, ?_, fun cfg st business_id k => rfl⟩
  have hbase : widgetDisplayedAnswer [("answer", JVal.jstr s)]
      = (if decide (s ≠ "") = true then s else widgetFallback) := rfl
  rw [hbase]
  by_cases h : s = "" <;> simp [h]

/-! ### Concrete sample data for witnesses -/

/-- A deterministic stand-in embedding collaborator for concrete runs. -/
def sampleCfg : Config :=
  { embed := fun s => [Int.ofNat s.length], grace := 2, stockPenalty := 5 }

def pA : Product :=
  { identity := "a", name := "Black Boot", descr := "leather"
    price := some 120, currency := "USD", categories := ["boots"]
    color := some "black", size := none, inStock := some true
    url := "http://shop/a", contentHash := 10 }

def pB : Product :=
  { identity := "b", name := "Black Boot Pro", descr := "suede"
    price := some 200, currency := "USD", categories := ["boots"]
    color := some "black", size := none, inStock := some true
    url := "http://shop/b", contentHash := 20 }

def pC : Product :=
  { identity := "c", name := "Red Boot", descr := "canvas"
    price := some 100, currency := "USD", categories := ["boots"]
    color := some "red", size := none, inStock := some true
    url := "http://shop/c", contentHash := 30 }

def sA : StoredProduct := { prod := pA, unseenCount := 0, stale := false, updatedAt := 1 }
def sB : StoredProduct := { prod := pB, unseenCount := 0, stale := false, updatedAt := 1 }
def sC : StoredProduct := { prod := pC, unseenCount := 0, stale := false, updatedAt := 1 }

def pgGood : Page :=
  { url := "http://shop/boot", titleText := some "Boot"
    priceText := some "$12x", descText := some "nice" }

def pgNoName : Page :=
  { url := "http://shop/untitled", titleText := none
    priceText := some "$120", descText := none }

/-- C3: the IndexEntry used to serve a query for a Product always carries the
Product's current content hash; a stored entry whose guard hash predates the
current content hash (an `IndexStalenessViolation`) is never served — a
forced re-embed is used instead — while a fresh stored entry is served
as-is. -/
theorem indexer_never_serves_stale (cfg : Config) (ix : Index) (p : Product) :
    (entryUsed cfg ix p).hash = p.contentHash
    ∧ (∀ e, lookupIx ix p.identity = some e → e.hash ≠ p.contentHash →
        entryUsed cfg ix p = reembedEntry cfg p)
    ∧ (∀ e, lookupIx ix p.identity = some e → e.hash = p.contentHash →
        entryUsed cfg ix p = e) := by
  refine ⟨?_, ?_, ?_⟩
  · cases h : lookupIx ix p.identity with
    | none => simp [entryUsed, h, reembedEntry]
    | some e =>
      by_cases hh : e.hash = p.contentHash <;>
        simp [entryUsed, h, hh, reembedEntry]
  · intro e he hne
    simp [entryUsed, he, hne]
  · intro e he hh
    simp [entryUsed, he, hh]

/-- C3 witness: a stored entry with guard hash 9 for a Product whose current
content hash is 10 is replaced by a forced re-embed, and the entry used
matches the current hash. -/
theorem indexer_never_serves_stale_witness :
    entryUsed sampleCfg [("a", { hash := 9, vector := [3] })] pA
      = reembedEntry sampleCfg pA
    ∧ (entryUsed sampleCfg [("a", { hash := 9, vector := [3] })] pA).hash
      = pA.contentHash :=
  ⟨(indexer_never_serves_stale sampleCfg
      [("a", { hash := 9, vector := [3] })] pA).2.1
      { hash := 9, vector := [3] } rfl (by decide),
   (indexer_never_serves_stale sampleCfg
      [("a", { hash := 9, vector := [3] })] pA).1⟩

/-- C7: the generic-HTML extraction strategy yields a candidate Product with
the price field absent from a page with a valid name and a malformed or
absent price, and yields no candidate at all from a page with no extractable
name. -/
theorem generic_extraction_best_effort (pg : Page) (n : String) :
    (extractName pg = some n → pg.priceText.bind parsePriceText = none →
      ∃ p, extractGeneric pg = some p ∧ p.name = n ∧ p.price = none)
    ∧ (extractName pg = none → extractGeneric pg = none) := by
  constructor
  · intro hn hp
    simp only [extractGeneric, hn, hp]
    exact ⟨_, rfl, rfl, rfl⟩
  · intro hn
    simp [extractGeneric, hn]

/-- C7 witness: a page titled "Boot" with malformed price text "$12x" yields
a candidate named "Boot" with no price; a page with no title yields no
candidate. -/
theorem generic_extraction_best_effort_witness :
    (∃ p, extractGeneric pgGood = some p ∧ p.name = "Boot" ∧ p.price = none)
    ∧ extractGeneric pgNoName = none :=
  ⟨(generic_extraction_best_effort pgGood "Boot").1 (by decide) (by decide),
   (generic_extraction_best_effort pgNoName "").2 (by decide)⟩

/-! ### C8: quota gate -/

/-- The number of candidates in a list that are net-new to a catalog. -/
def countNetNew (cat : Catalog) (cands : List Product) : Nat :=
  (cands.filter (fun c => !(lookupId cat c.identity).isSome)).length

theorem gateSplit_mem (cap : Nat) (cat : Catalog) :
    ∀ (cands : List Product) (used : Nat), ∀ c ∈ cands,
      c ∈ (gateSplit used cap cat cands).1 ∨ c ∈ (gateSplit used cap cat cands).2 := by
  intro cands
  induction cands with
  | nil => intro used c hc; cases hc
  | cons c0 rest ih =>
    intro used c hc
    rcases List.mem_cons.mp hc with hc | hc
    · subst hc
      by_cases hex : (lookupId cat c.identity).isSome
      · left; simp [gateSplit, hex]
      · unfold gateSplit check_and_increment
        by_cases hq : used + 1 ≤ cap <;> simp [hex, hq]
    · by_cases hex : (lookupId cat c0.identity).isSome
      · have := ih used c hc
        rcases this with h | h
        · left; simp [gateSplit, hex, h]
        · right; simp [gateSplit, hex, h]
      · unfold gateSplit check_and_increment
        by_cases hq : used + 1 ≤ cap
        · have := ih (used + 1) c hc
          rcases this with h | h
          · left; simp [hex, hq, h]
          · right; simp [hex, hq, h]
        · have := ih used c hc
          rcases this with h | h
          · left; simp [hex, hq, h]
          · right; simp [hex, hq, h]

theorem gateSplit_count (cap : Nat) (cat : Catalog) :
    ∀ (cands : List Product) (used : Nat), used ≤ cap →
      countNetNew cat (gateSplit used cap cat cands).1
        = min (cap - used) (countNetNew cat cands) := by
  intro cands
  induction cands with
  | nil => intro used _; simp [gateSplit, countNetNew]
  | cons c0 rest ih =>
    intro used hused
    by_cases hex : (lookupId cat c0.identity).isSome
    · have hnn : lookupId cat c0.identity ≠ none :=
        Option.isSome_iff_ne_none.mp hex
      have h1 : gateSplit used cap cat (c0 :: rest)
          = (c0 :: (gateSplit used cap cat rest).1, (gateSplit used cap cat rest).2) := by
        simp [gateSplit, hex]
      rw [h1]
      have h2 : countNetNew cat (c0 :: (gateSplit used cap cat rest).1)
          = countNetNew cat (gateSplit used cap cat rest).1 := by
        simp [countNetNew, List.filter_cons, hnn]
      have h3 : countNetNew cat (c0 :: rest) = countNetNew cat rest := by
        simp [countNetNew, List.filter_cons, hnn]
      rw [h2, h3, ih used hused]
    · have hn : lookupId cat c0.identity = none :=
        Option.not_isSome_iff_eq_none.mp hex
      unfold gateSplit check_and_increment
      by_cases hq : used + 1 ≤ cap
      · have h1 : countNetNew cat
            (c0 :: (gateSplit (used + 1) cap cat rest).1)
            = countNetNew cat (gateSplit (used + 1) cap cat rest).1 + 1 := by
          simp [countNetNew, List.filter_cons, hn]
        have h3 : countNetNew cat (c0 :: rest) = countNetNew cat rest + 1 := by
          simp [countNetNew, List.filter_cons, hn]
        simp only [hex, hq, if_true, if_pos, Bool.false_eq_true, if_false]
        simp only [h1, h3, ih (used + 1) hq]
        omega
      · have hcap : cap - used = 0 := by omega
        have h3 : countNetNew cat (c0 :: rest) = countNetNew cat rest + 1 := by
          simp [countNetNew, List.filter_cons, hn]
        simp only [hex, hq, if_false, if_neg, Bool.false_eq_true, if_true]
        simp only [h3, ih used hused, hcap]
        omega

/-- C8: a crawl whose candidates would exceed the tier product cap still
upserts net-new products up to the cap (the accepted net-new count is
exactly `min (cap - used) (net-new candidates)`), defers the remainder
rather than dropping any candidate, and surfaces the distinct
`okQuotaExceeded` outcome, which is never the generic crawl failure. -/
theorem quota_cap_defers_never_drops (used cap : Nat) (cat : Catalog)
    (cands : List Product) (hused : used ≤ cap) :
    (∀ c ∈ cands, c ∈ (gateSplit used cap cat cands).1
      ∨ c ∈ (gateSplit used cap cat cands).2)
    ∧ countNetNew cat (gateSplit used cap cat cands).1
        = min (cap - used) (countNetNew cat cands)
    ∧ (∀ (cfg : Config) (now : Nat), (gateSplit used cap cat cands).2 ≠ [] →
        (crawlWithCap cfg now used cap cat cands).2
          = CrawlOutcome.okQuotaExceeded
              (crawlDiff cfg now cat (gateSplit used cap cat cands).1).2
              (gateSplit used cap cat cands).2)
    ∧ (∀ (d : Diff) (df : List Product) (e : Nat) (d' : Diff),
        CrawlOutcome.okQuotaExceeded d df ≠ CrawlOutcome.failed e
        ∧ CrawlOutcome.okQuotaExceeded d df ≠ CrawlOutcome.ok d') := by
  refine ⟨gateSplit_mem cap cat cands used, gateSplit_count cap cat cands used hused,
    ?_, fun d df e d' => ⟨by simp, by simp⟩⟩
  intro cfg now hne
  unfold crawlWithCap
  cases hd : (gateSplit used cap cat cands).2 with
  | nil => exact absurd hd hne
  | cons x xs => simp [hd]

/-- C8 witness: with one slot left under the cap and two net-new candidates,
the first is upserted, the second is deferred (not dropped), and the crawl
outcome is `okQuotaExceeded`. -/
theorem quota_cap_defers_never_drops_witness :
    (pB ∈ (gateSplit 0 1 [] [pA, pB]).1 ∨ pB ∈ (gateSplit 0 1 [] [pA, pB]).2)
    ∧ countNetNew [] (gateSplit 0 1 [] [pA, pB]).1
        = min (1 - 0) (countNetNew [] [pA, pB])
    ∧ (crawlWithCap sampleCfg 3 0 1 [] [pA, pB]).2
        = CrawlOutcome.okQuotaExceeded
            (crawlDiff sampleCfg 3 [] (gateSplit 0 1 [] [pA, pB]).1).2
            (gateSplit 0 1 [] [pA, pB]).2 := by
  obtain ⟨h1, h2, h3, _⟩ :=
    quota_cap_defers_never_drops 0 1 [] [pA, pB] (by decide)
  exact ⟨h1 pB (by simp), h2, h3 sampleCfg 3 (by decide)⟩

/-! ### Catalog Store lookup lemmas -/

theorem upsertAll_cons (now : Nat) (cat : Catalog) (c : Product)
    (cs : List Product) :
    upsertAll now cat (c :: cs) = upsertAll now (upsert1 now cat c) cs := rfl

theorem upsert1_merge_unchanged (now : Nat) (c : Product) (s : StoredProduct)
    (rest : Catalog) (h1 : c.identity = s.prod.identity)
    (h2 : s.prod.contentHash = c.contentHash) :
    upsert1 now (s :: rest) c
      = { prod := s.prod, unseenCount := 0, stale := false,
          updatedAt := s.updatedAt } :: rest := by
  simp [upsert1, h1, h2]

theorem upsert1_merge_changed (now : Nat) (c : Product) (s : StoredProduct)
    (rest : Catalog) (h1 : c.identity = s.prod.identity)
    (h2 : ¬s.prod.contentHash = c.contentHash) :
    upsert1 now (s :: rest) c
      = { prod := c, unseenCount := 0, stale := false,
          updatedAt := now } :: rest := by
  simp [upsert1, h1, h2]

theorem upsert1_insert_before (now : Nat) (c : Product) (s : StoredProduct)
    (rest : Catalog) (h1 : ¬c.identity = s.prod.identity)
    (h3 : c.identity < s.prod.identity) :
    upsert1 now (s :: rest) c
      = { prod := c, unseenCount := 0, stale := false, updatedAt := now }
          :: s :: rest := by
  simp [upsert1, h1, h3]

theorem upsert1_skip (now : Nat) (c : Product) (s : StoredProduct)
    (rest : Catalog) (h1 : ¬c.identity = s.prod.identity)
    (h3 : ¬c.identity < s.prod.identity) :
    upsert1 now (s :: rest) c = s :: upsert1 now rest c := by
  simp [upsert1, h1, h3]

theorem lookupId_cons (s : StoredProduct) (rest : Catalog) (i : String) :
    lookupId (s :: rest) i
      = if s.prod.identity = i then some s else lookupId rest i := by
  unfold lookupId
  rw [List.find?_cons]
  by_cases h : s.prod.identity = i <;> simp [h]

theorem lookupId_upsert1_other (now : Nat) (c : Product) (i : String)
    (hne : i ≠ c.identity) :
    ∀ cat, lookupId (upsert1 now cat c) i = lookupId cat i := by
  have hci : ¬(c.identity = i) := fun h => hne h.symm
  intro cat
  induction cat with
  | nil => simp [upsert1, lookupId, List.find?_cons, hci]
  | cons s rest ih =>
    by_cases h1 : c.identity = s.prod.identity
    · have hi : ¬(s.prod.identity = i) := fun h => hci (h1.trans h)
      by_cases h2 : s.prod.contentHash = c.contentHash
      · rw [upsert1_merge_unchanged now c s rest h1 h2,
          lookupId_cons, lookupId_cons]
        simp [hi]
      · rw [upsert1_merge_changed now c s rest h1 h2,
          lookupId_cons, lookupId_cons]
        simp [hi, hci]
    · by_cases h3 : c.identity < s.prod.identity
      · rw [upsert1_insert_before now c s rest h1 h3, lookupId_cons]
        simp [hci]
      · rw [upsert1_skip now c s rest h1 h3, lookupId_cons, lookupId_cons]
        by_cases hi : s.prod.identity = i <;> simp [hi, ih]

theorem lookupId_upsert1_self (now : Nat) (c : Product) :
    ∀ cat, ∃ s', lookupId (upsert1 now cat c) c.identity = some s'
      ∧ s'.prod.contentHash = c.contentHash ∧ s'.prod.identity = c.identity := by
  intro cat
  induction cat with
  | nil =>
    refine ⟨{ prod := c, unseenCount := 0, stale := false, updatedAt := now },
      ?_, rfl, rfl⟩
    simp [upsert1, lookupId, List.find?_cons]
  | cons s rest ih =>
    by_cases h1 : c.identity = s.prod.identity
    · by_cases h2 : s.prod.contentHash = c.contentHash
      · refine ⟨{ prod := s.prod, unseenCount := 0, stale := false, updatedAt := s.updatedAt }, ?_, h2, h1.symm⟩
        rw [upsert1_merge_unchanged now c s rest h1 h2, lookupId_cons]
        simp [h1.symm]
      · refine ⟨{ prod := c, unseenCount := 0, stale := false, updatedAt := now }, ?_, rfl, rfl⟩
        rw [upsert1_merge_changed now c s rest h1 h2, lookupId_cons]
        simp
    · by_cases h3 : c.identity < s.prod.identity
      · refine ⟨{ prod := c, unseenCount := 0, stale := false, updatedAt := now }, ?_, rfl, rfl⟩
        rw [upsert1_insert_before now c s rest h1 h3, lookupId_cons]
        simp
      · obtain ⟨s', hs', hh, hi⟩ := ih
        refine ⟨s', ?_, hh, hi⟩
        have hns : ¬(s.prod.identity = c.identity) := fun h => h1 h.symm
        rw [upsert1_skip now c s rest h1 h3, lookupId_cons, if_neg hns]
        exact hs'

theorem lookupId_upsertAll_not_mem (now : Nat) (i : String) :
    ∀ (cands : List Product) (cat : Catalog),
      i ∉ cands.map Product.identity →
      lookupId (upsertAll now cat cands) i = lookupId cat i := by
  intro cands
  induction cands with
  | nil => intro cat _; rfl
  | cons c cs ih =>
    intro cat hmem
    rw [List.map_cons, List.mem_cons] at hmem
    push_neg at hmem
    rw [upsertAll_cons]
    exact (ih (upsert1 now cat c) hmem.2).trans
      (lookupId_upsert1_other now c i hmem.1 cat)

theorem lookupId_upsertAll_covered (now : Nat) :
    ∀ (cands : List Product) (cat : Catalog),
      (cands.map Product.identity).Nodup →
      ∀ c ∈ cands, ∃ s', lookupId (upsertAll now cat cands) c.identity = some s'
        ∧ s'.prod.contentHash = c.contentHash := by
  intro cands
  induction cands with
  | nil => intro cat _ c hc; cases hc
  | cons c0 cs ih =>
    intro cat hnodup c hc
    rw [List.map_cons] at hnodup
    have hnd := List.nodup_cons.mp hnodup
    rcases List.mem_cons.mp hc with hc | hc
    · subst hc
      obtain ⟨s', hs', hh, _⟩ := lookupId_upsert1_self now c cat
      refine ⟨s', ?_, hh⟩
      rw [upsertAll_cons,
        lookupId_upsertAll_not_mem now c.identity cs (upsert1 now cat c) hnd.1]
      exact hs'
    · rw [upsertAll_cons]
      exact ih (upsert1 now cat c0) hnd.2 c hc

theorem lookupId_map_pres (g : StoredProduct → StoredProduct)
    (hg : ∀ s, (g s).prod.identity = s.prod.identity) (i : String) :
    ∀ cat, lookupId (cat.map g) i = (lookupId cat i).map g := by
  intro cat
  induction cat with
  | nil => rfl
  | cons s rest ih =>
    by_cases h : s.prod.identity = i
    · simp [lookupId, List.find?_cons, hg, h]
    · simpa [lookupId, List.find?_cons, hg, h] using ih

theorem bumpFun_prod (grace : Nat) (seen : List String) (s : StoredProduct) :
    (bumpFun grace seen s).prod = s.prod := by
  unfold bumpFun; split <;> rfl

theorem lookupId_bumpUnseen (grace : Nat) (seen : List String) (i : String)
    (cat : Catalog) :
    lookupId (bumpUnseen grace seen cat) i
      = (lookupId cat i).map (bumpFun grace seen) :=
  lookupId_map_pres (bumpFun grace seen)
    (fun s => by rw [bumpFun_prod]) i cat

/-! ### C1: conjunctive hard filters -/

/-- C1: every (product, score) pair returned by `search` satisfies all
stated structured filters conjunctively — a product failing any one stated
filter appears nowhere in the result list. -/
theorem search_respects_filters (cfg : Config) (st : SysState) (f : Filters)
    (q : String) (k : Nat) (s : StoredProduct) (sc : Int)
    (hmem : (s, sc) ∈ search cfg st f q k) :
    matchesFilters f (attrProj s.prod) = true := by
  unfold search at hmem
  have h1 := List.mem_of_mem_take hmem
  rw [List.mem_insertionSort] at h1
  obtain ⟨s', hs', heq⟩ := List.mem_map.mp h1
  have hss : s' = s := congrArg Prod.fst heq
  subst hss
  obtain ⟨-, hpred⟩ := List.mem_filter.mp hs'
  rw [Bool.and_eq_true] at hpred
  exact hpred.2

/-- C1 witness: on the spec's own example catalog (a $120 black boot, a $200
black boot, a $100 red boot) with filters `price_max = 150, color = black`,
the returned $120 black boot satisfies all stated filters. -/
theorem search_respects_filters_witness :
    matchesFilters { price_max := some 150, color := some "black" }
      (attrProj sA.prod) = true :=
  search_respects_filters sampleCfg { catalog := [sA, sB, sC], index := [] }
    { price_max := some 150, color := some "black" } "black boots" 5
    sA (adjScore sampleCfg [] "black boots" sA) (by decide)

/-! ### C5: staleness grace period -/

theorem not_in_search_of_stale (cfg : Config) (st : SysState) (f : Filters)
    (q : String) (k : Nat) (s : StoredProduct) (sc : Int)
    (h : s.stale = true) : (s, sc) ∉ search cfg st f q k := by
  intro hmem
  unfold search at hmem
  have h1 := List.mem_of_mem_take hmem
  rw [List.mem_insertionSort] at h1
  obtain ⟨s', hs', heq⟩ := List.mem_map.mp h1
  have hss : s' = s := congrArg Prod.fst heq
  subst hss
  obtain ⟨-, hpred⟩ := List.mem_filter.mp hs'
  rw [Bool.and_eq_true, h] at hpred
  simp at hpred

theorem crawlCatalog_unseen_step (cfg : Config) (now : Nat) (cat : Catalog)
    (cands : List Product) (i : String) (s : StoredProduct)
    (hs : lookupId cat i = some s) (hi : i ∉ cands.map Product.identity) :
    lookupId (crawlCatalog cfg now cat cands) i
      = some { prod := s.prod, unseenCount := s.unseenCount + 1,
               stale := s.stale || decide (cfg.grace ≤ s.unseenCount + 1),
               updatedAt := s.updatedAt } := by
  have hs2 : List.find? (fun x => decide (x.prod.identity = i)) cat = some s := hs
  have hs3 := List.find?_some hs2
  have hsid : s.prod.identity = i := of_decide_eq_true hs3
  unfold crawlCatalog
  rw [lookupId_bumpUnseen, lookupId_upsertAll_not_mem now i cands cat hi, hs]
  simp [bumpFun, hsid, hi]

theorem crawlSeq_unseen (cfg : Config) (now : Nat) (i : String) :
    ∀ (seqs : List (List Product)) (cat : Catalog) (s : StoredProduct),
      lookupId cat i = some s →
      s.stale = decide (cfg.grace ≤ s.unseenCount) →
      (∀ cs ∈ seqs, i ∉ cs.map Product.identity) →
      lookupId (seqs.foldl (crawlCatalog cfg now) cat) i
        = some { prod := s.prod, unseenCount := s.unseenCount + seqs.length,
                 stale := decide (cfg.grace ≤ s.unseenCount + seqs.length),
                 updatedAt := s.updatedAt } := by
  intro seqs
  induction seqs with
  | nil =>
    intro cat s hs hst _
    have hrec : ({ prod := s.prod,
                   unseenCount := s.unseenCount + ([] : List (List Product)).length,
                   stale := decide (cfg.grace ≤ s.unseenCount + ([] : List (List Product)).length),
                   updatedAt := s.updatedAt } : StoredProduct) = s := by
      rw [List.length_nil, Nat.add_zero, ← hst]
    rw [List.foldl_nil, hrec]
    exact hs
  | cons cs rest ih =>
    intro cat s hs hst hun
    rw [List.foldl_cons]
    have h1 := crawlCatalog_unseen_step cfg now cat cs i s hs
      (hun cs (List.mem_cons_self cs rest))
    have hst1 : (s.stale || decide (cfg.grace ≤ s.unseenCount + 1))
        = decide (cfg.grace ≤ s.unseenCount + 1) := by
      by_cases h : cfg.grace ≤ s.unseenCount <;>
        by_cases h' : cfg.grace ≤ s.unseenCount + 1 <;>
        (simp [hst, h, h']; try omega)
    rw [hst1] at h1
    have h2 := ih (crawlCatalog cfg now cat cs)
      { prod := s.prod, unseenCount := s.unseenCount + 1,
        stale := decide (cfg.grace ≤ s.unseenCount + 1),
        updatedAt := s.updatedAt } h1 rfl
      (fun c hc => hun c (List.mem_cons_of_mem cs hc))
    rw [h2, List.length_cons,
      show s.unseenCount + (rest.length + 1) = s.unseenCount + 1 + rest.length
        from by omega]

/-- C5: a Product that stops appearing in crawls is marked stale only after
being unseen across the configured grace threshold of consecutive crawls —
never immediately (while the unseen count is below the threshold it is not
stale) and never by deletion (its record remains, content intact) — and once
stale it is excluded from all search results. -/
theorem stale_only_after_grace (cfg : Config) (now : Nat) (cat : Catalog)
    (i : String) (s : StoredProduct) (seqs : List (List Product))
    (hg : 1 ≤ cfg.grace) (hs : lookupId cat i = some s)
    (hfresh : s.unseenCount = 0) (hstale : s.stale = false)
    (hunseen : ∀ cs ∈ seqs, i ∉ cs.map Product.identity) :
    ∃ s', lookupId (seqs.foldl (crawlCatalog cfg now) cat) i = some s'
      ∧ s'.prod = s.prod
      ∧ s'.unseenCount = seqs.length
      ∧ s'.stale = decide (cfg.grace ≤ seqs.length)
      ∧ (seqs.length < cfg.grace → s'.stale = false)
      ∧ (∀ (ix : Index) (f : Filters) (q : String) (k : Nat) (sc : Int),
          cfg.grace ≤ seqs.length →
          (s', sc) ∉ search cfg
            { catalog := seqs.foldl (crawlCatalog cfg now) cat, index := ix }
            f q k) := by
  have hst : s.stale = decide (cfg.grace ≤ s.unseenCount) := by
    rw [hstale, hfresh]
    symm
    simp only [decide_eq_false_iff_not]
    omega
  have hmain := crawlSeq_unseen cfg now i seqs cat s hs hst hunseen
  refine ⟨_, hmain, rfl, by rw [hfresh, Nat.zero_add],
    by rw [hfresh, Nat.zero_add], ?_, ?_⟩
  · intro hlt
    simp only [hfresh, Nat.zero_add, decide_eq_false_iff_not]
    omega
  · intro ix f q k sc hge
    apply not_in_search_of_stale
    simp only [hfresh, Nat.zero_add, decide_eq_true_eq]
    exact hge

/-- C5 witness: with grace threshold 2, a catalogued product unseen in two
consecutive empty crawls ends stale with unseen count 2, its record and
content intact, and is excluded from a concrete search. -/
theorem stale_only_after_grace_witness :
    ∃ s', lookupId ([([] : List Product), []].foldl
        (crawlCatalog sampleCfg 7) [sA]) "a" = some s'
      ∧ s'.prod = sA.prod
      ∧ s'.unseenCount = [([] : List Product), []].length
      ∧ s'.stale = decide (sampleCfg.grace ≤ [([] : List Product), []].length)
      ∧ ([([] : List Product), []].length < sampleCfg.grace → s'.stale = false)
      ∧ (∀ (ix : Index) (f : Filters) (q : String) (k : Nat) (sc : Int),
          sampleCfg.grace ≤ [([] : List Product), []].length →
          (s', sc) ∉ search sampleCfg
            { catalog := [([] : List Product), []].foldl
                (crawlCatalog sampleCfg 7) [sA], index := ix }
            f q k) :=
  stale_only_after_grace sampleCfg 7 [sA] "a" sA [[], []]
    (by decide) (by decide) (by decide) (by decide) (by decide)

/-! ### C4: idempotent re-crawl -/

/-- Every candidate already has a stored record with its exact content hash. -/
def Covered (cat : Catalog) (cands : List Product) : Prop :=
  ∀ c ∈ cands, ∃ s, lookupId cat c.identity = some s
    ∧ s.prod.contentHash = c.contentHash

theorem diffFold_fst (now : Nat) :
    ∀ (cands : List Product) (cat : Catalog) (d : Diff),
      (List.foldl (diffStep now) (cat, d) cands).1 = upsertAll now cat cands := by
  intro cands
  induction cands with
  | nil => intro cat d; rfl
  | cons c cs ih =>
    intro cat d
    rw [List.foldl_cons, upsertAll_cons]
    exact ih (upsert1 now cat c) _

theorem diffFold_unchanged (now : Nat) :
    ∀ (cands : List Product) (cat : Catalog) (d : Diff),
      Covered cat cands →
      (List.foldl (diffStep now) (cat, d) cands).2.created = d.created
      ∧ (List.foldl (diffStep now) (cat, d) cands).2.updated = d.updated := by
  intro cands
  induction cands with
  | nil => intro cat d _; exact ⟨rfl, rfl⟩
  | cons c cs ih =>
    intro cat d hcov
    obtain ⟨s, hs, hh⟩ := hcov c (List.mem_cons_self c cs)
    rw [List.foldl_cons]
    have hstep : diffStep now (cat, d) c
        = (upsert1 now cat c,
           { d with unchanged := d.unchanged ++ [c.identity] }) := by
      simp [diffStep, hs, hh]
    rw [hstep]
    have hcov' : Covered (upsert1 now cat c) cs := by
      intro c' hc'
      obtain ⟨s', hs', hh'⟩ := hcov c' (List.mem_cons_of_mem c hc')
      by_cases he : c'.identity = c.identity
      · obtain ⟨t, ht, hth, -⟩ := lookupId_upsert1_self now c cat
        have hss : s = s' := by
          rw [he] at hs'
          exact Option.some.inj (hs.symm.trans hs')
        refine ⟨t, by rw [he]; exact ht, ?_⟩
        rw [hth, ← hh, hss, hh']
      · rw [lookupId_upsert1_other now c c'.identity he cat]
        exact ⟨s', hs', hh'⟩
    exact ih (upsert1 now cat c) _ hcov'

theorem covered_after_crawlDiff (cfg : Config) (now : Nat) (cat : Catalog)
    (cands : List Product) (hnodup : (cands.map Product.identity).Nodup) :
    Covered (crawlDiff cfg now cat cands).1 cands := by
  intro c hc
  obtain ⟨s', hs', hh⟩ := lookupId_upsertAll_covered now cands cat hnodup c hc
  have h1 : (crawlDiff cfg now cat cands).1
      = bumpUnseen cfg.grace (cands.map Product.identity)
          (upsertAll now cat cands) := by
    show bumpUnseen cfg.grace (cands.map Product.identity)
        (List.foldl (diffStep now) (cat, emptyDiff) cands).1 = _
    rw [diffFold_fst]
  rw [h1, lookupId_bumpUnseen, hs']
  exact ⟨_, rfl, by rw [bumpFun_prod]; exact hh⟩

/-- C4: re-running an identical crawl over unchanged source data is
idempotent — the second Diff has zero created and zero updated entries, the
index (and so every IndexEntry vector) is unchanged, and no embedding calls
are issued. -/
theorem recrawl_idempotent (cfg : Config) (now now2 : Nat) (st : SysState)
    (cands : List Product) (hnodup : (cands.map Product.identity).Nodup) :
    (crawlFull cfg now2 (crawlFull cfg now st cands).1 cands).2.1.created = []
    ∧ (crawlFull cfg now2 (crawlFull cfg now st cands).1 cands).2.1.updated = []
    ∧ (crawlFull cfg now2 (crawlFull cfg now st cands).1 cands).2.2 = 0
    ∧ (crawlFull cfg now2 (crawlFull cfg now st cands).1 cands).1.index
        = (crawlFull cfg now st cands).1.index := by
  have hcov : Covered ((crawlFull cfg now st cands).1).catalog cands :=
    covered_after_crawlDiff cfg now st.catalog cands hnodup
  have hd := diffFold_unchanged now2 cands
    ((crawlFull cfg now st cands).1).catalog emptyDiff hcov
  have hc2 : (crawlDiff cfg now2 ((crawlFull cfg now st cands).1).catalog
      cands).2.created = [] := hd.1
  have hu2 : (crawlDiff cfg now2 ((crawlFull cfg now st cands).1).catalog
      cands).2.updated = [] := hd.2
  have hlist : (crawlDiff cfg now2 ((crawlFull cfg now st cands).1).catalog
        cands).2.created
      ++ (crawlDiff cfg now2 ((crawlFull cfg now st cands).1).catalog
        cands).2.updated = [] := by
    rw [hc2, hu2]; rfl
  refine ⟨hc2, hu2, ?_, ?_⟩
  · show (reindexIds cfg _ _ ((crawlDiff cfg now2 _ cands).2.created
      ++ (crawlDiff cfg now2 _ cands).2.updated)).2 = 0
    rw [hlist]
    rfl
  · show (reindexIds cfg _ _ ((crawlDiff cfg now2 _ cands).2.created
      ++ (crawlDiff cfg now2 _ cands).2.updated)).1 = _
    rw [hlist]
    rfl

/-- C4 witness: crawling `[pA, pB]` twice from an empty state — the second
crawl reports nothing created or updated, issues zero embedding calls, and
leaves the index untouched. -/
theorem recrawl_idempotent_witness :
    (crawlFull sampleCfg 2 (crawlFull sampleCfg 1
        { catalog := [], index := [] } [pA, pB]).1 [pA, pB]).2.1.created = []
    ∧ (crawlFull sampleCfg 2 (crawlFull sampleCfg 1
        { catalog := [], index := [] } [pA, pB]).1 [pA, pB]).2.1.updated = []
    ∧ (crawlFull sampleCfg 2 (crawlFull sampleCfg 1
        { catalog := [], index := [] } [pA, pB]).1 [pA, pB]).2.2 = 0
    ∧ (crawlFull sampleCfg 2 (crawlFull sampleCfg 1
        { catalog := [], index := [] } [pA, pB]).1 [pA, pB]).1.index
      = (crawlFull sampleCfg 1 { catalog := [], index := [] } [pA, pB]).1.index :=
  recrawl_idempotent sampleCfg 1 2 { catalog := [], index := [] } [pA, pB]
    (by decide)

/-! ### C6: deterministic ranking, independent of upsert order -/

theorem foldl_perm_of_comm {α β : Type} (f : β → α → β) :
    ∀ {l₁ l₂ : List α}, l₁.Perm l₂ →
      (∀ x ∈ l₁, ∀ y ∈ l₁, ∀ z, f (f z x) y = f (f z y) x) →
      ∀ b, l₁.foldl f b = l₂.foldl f b := by
  intro l₁ l₂ hp
  induction hp with
  | nil => intro _ b; rfl
  | cons x p ih =>
    intro hcomm b
    rw [List.foldl_cons, List.foldl_cons]
    exact ih (fun u hu v hv =>
      hcomm u (List.mem_cons_of_mem x hu) v (List.mem_cons_of_mem x hv)) (f b x)
  | swap x y l =>
    intro hcomm b
    rw [List.foldl_cons, List.foldl_cons, List.foldl_cons, List.foldl_cons,
      hcomm x (by simp) y (by simp) b]
  | trans p₁ p₂ ih₁ ih₂ =>
    intro hcomm b
    exact (ih₁ hcomm b).trans
      (ih₂ (fun u hu v hv =>
        hcomm u (p₁.mem_iff.mpr hu) v (p₁.mem_iff.mpr hv)) b)

theorem upsert1_comm (now : Nat) (a b : Product)
    (hab : a.identity ≠ b.identity) :
    ∀ cat : Catalog, upsert1 now (upsert1 now cat a) b
      = upsert1 now (upsert1 now cat b) a := by
  have hnab : ¬a.identity = b.identity := hab
  have hnba : ¬b.identity = a.identity := fun h => hab h.symm
  intro cat
  induction cat with
  | nil =>
    rcases lt_trichotomy a.identity b.identity with hx | hx | hx
    · show upsert1 now [⟨a, 0, false, now⟩] b = upsert1 now [⟨b, 0, false, now⟩] a
      rw [upsert1_skip now b ⟨a, 0, false, now⟩ [] hnba (asymm hx),
        upsert1_insert_before now a ⟨b, 0, false, now⟩ [] hnab hx]
      rfl
    · exact absurd hx hab
    · show upsert1 now [⟨a, 0, false, now⟩] b = upsert1 now [⟨b, 0, false, now⟩] a
      rw [upsert1_insert_before now b ⟨a, 0, false, now⟩ [] hnba hx,
        upsert1_skip now a ⟨b, 0, false, now⟩ [] hnab (asymm hx)]
      rfl
  | cons s rest ih =>
    rcases lt_trichotomy a.identity s.prod.identity with ha | ha | ha <;>
      rcases lt_trichotomy b.identity s.prod.identity with hb | hb | hb
    · -- a < s, b < s
      have hna : ¬a.identity = s.prod.identity := ne_of_lt ha
      have hnb : ¬b.identity = s.prod.identity := ne_of_lt hb
      rcases lt_trichotomy a.identity b.identity with hx | hx | hx
      · rw [upsert1_insert_before now a s rest hna ha,
          upsert1_skip now b ⟨a, 0, false, now⟩ (s :: rest) hnba (asymm hx),
          upsert1_insert_before now b s rest hnb hb,
          upsert1_insert_before now a ⟨b, 0, false, now⟩ (s :: rest) hnab hx]
      · exact absurd hx hab
      · rw [upsert1_insert_before now a s rest hna ha,
          upsert1_insert_before now b ⟨a, 0, false, now⟩ (s :: rest) hnba hx,
          upsert1_insert_before now b s rest hnb hb,
          upsert1_skip now a ⟨b, 0, false, now⟩ (s :: rest) hnab (asymm hx),
          upsert1_insert_before now a s rest hna ha]
    · -- a < s, b = s
      have hna : ¬a.identity = s.prod.identity := ne_of_lt ha
      have hx : a.identity < b.identity := by rw [hb]; exact ha
      by_cases hh : s.prod.contentHash = b.contentHash
      · rw [upsert1_insert_before now a s rest hna ha,
          upsert1_skip now b ⟨a, 0, false, now⟩ (s :: rest) hnba (asymm hx),
          upsert1_merge_unchanged now b s rest hb hh,
          upsert1_insert_before now a ⟨s.prod, 0, false, s.updatedAt⟩ rest hna ha]
      · rw [upsert1_insert_before now a s rest hna ha,
          upsert1_skip now b ⟨a, 0, false, now⟩ (s :: rest) hnba (asymm hx),
          upsert1_merge_changed now b s rest hb hh,
          upsert1_insert_before now a ⟨b, 0, false, now⟩ rest hnab hx]
    · -- a < s, s < b
      have hna : ¬a.identity = s.prod.identity := ne_of_lt ha
      have hnb : ¬b.identity = s.prod.identity := ne_of_gt hb
      have hx : a.identity < b.identity := ha.trans hb
      rw [upsert1_insert_before now a s rest hna ha,
        upsert1_skip now b ⟨a, 0, false, now⟩ (s :: rest) hnba (asymm hx),
        upsert1_skip now b s rest hnb (asymm hb),
        upsert1_insert_before now a s (upsert1 now rest b) hna ha]
    · -- a = s, b < s
      have hnb : ¬b.identity = s.prod.identity := ne_of_lt hb
      have hx : b.identity < a.identity := by rw [ha]; exact hb
      by_cases hh : s.prod.contentHash = a.contentHash
      · rw [upsert1_merge_unchanged now a s rest ha hh,
          upsert1_insert_before now b ⟨s.prod, 0, false, s.updatedAt⟩ rest hnb hb,
          upsert1_insert_before now b s rest hnb hb,
          upsert1_skip now a ⟨b, 0, false, now⟩ (s :: rest) hnab (asymm hx),
          upsert1_merge_unchanged now a s rest ha hh]
      · rw [upsert1_merge_changed now a s rest ha hh,
          upsert1_insert_before now b ⟨a, 0, false, now⟩ rest hnba hx,
          upsert1_insert_before now b s rest hnb hb,
          upsert1_skip now a ⟨b, 0, false, now⟩ (s :: rest) hnab (asymm hx),
          upsert1_merge_changed now a s rest ha hh]
    · -- a = s, b = s: contradiction
      exact absurd (ha.trans hb.symm) hab
    · -- a = s, s < b
      have hnb : ¬b.identity = s.prod.identity := ne_of_gt hb
      have hx : a.identity < b.identity := by rw [ha]; exact hb
      by_cases hh : s.prod.contentHash = a.contentHash
      · rw [upsert1_merge_unchanged now a s rest ha hh,
          upsert1_skip now b ⟨s.prod, 0, false, s.updatedAt⟩ rest hnb (asymm hb),
          upsert1_skip now b s rest hnb (asymm hb),
          upsert1_merge_unchanged now a s (upsert1 now rest b) ha hh]
      · rw [upsert1_merge_changed now a s rest ha hh,
          upsert1_skip now b ⟨a, 0, false, now⟩ rest hnba (asymm hx),
          upsert1_skip now b s rest hnb (asymm hb),
          upsert1_merge_changed now a s (upsert1 now rest b) ha hh]
    · -- s < a, b < s
      have hna : ¬a.identity = s.prod.identity := ne_of_gt ha
      have hnb : ¬b.identity = s.prod.identity := ne_of_lt hb
      have hx : b.identity < a.identity := hb.trans ha
      rw [upsert1_skip now a s rest hna (asymm ha),
        upsert1_insert_before now b s (upsert1 now rest a) hnb hb,
        upsert1_insert_before now b s rest hnb hb,
        upsert1_skip now a ⟨b, 0, false, now⟩ (s :: rest) hnab (asymm hx),
        upsert1_skip now a s rest hna (asymm ha)]
    · -- s < a, b = s
      have hna : ¬a.identity = s.prod.identity := ne_of_gt ha
      have hx : b.identity < a.identity := by rw [hb]; exact ha
      by_cases hh : s.prod.contentHash = b.contentHash
      · rw [upsert1_skip now a s rest hna (asymm ha),
          upsert1_merge_unchanged now b s (upsert1 now rest a) hb hh,
          upsert1_merge_unchanged now b s rest hb hh,
          upsert1_skip now a ⟨s.prod, 0, false, s.updatedAt⟩ rest hna (asymm ha)]
      · rw [upsert1_skip now a s rest hna (asymm ha),
          upsert1_merge_changed now b s (upsert1 now rest a) hb hh,
          upsert1_merge_changed now b s rest hb hh,
          upsert1_skip now a ⟨b, 0, false, now⟩ rest hnab (asymm hx)]
    · -- s < a, s < b
      have hna : ¬a.identity = s.prod.identity := ne_of_gt ha
      have hnb : ¬b.identity = s.prod.identity := ne_of_gt hb
      rw [upsert1_skip now a s rest hna (asymm ha),
        upsert1_skip now b s (upsert1 now rest a) hnb (asymm hb),
        upsert1_skip now b s rest hnb (asymm hb),
        upsert1_skip now a s (upsert1 now rest b) hna (asymm ha),
        ih]

theorem upsertAll_perm (now : Nat) (cat : Catalog)
    (cands₁ cands₂ : List Product) (hperm : cands₁.Perm cands₂)
    (hnodup : (cands₁.map Product.identity).Nodup) :
    upsertAll now cat cands₁ = upsertAll now cat cands₂ := by
  apply foldl_perm_of_comm (upsert1 now) hperm ?_ cat
  intro x hx y hy z
  by_cases hxy : x = y
  · subst hxy; rfl
  · have hne : x.identity ≠ y.identity := fun h =>
      hxy (List.inj_on_of_nodup_map hnodup hx hy h)
    exact upsert1_comm now x y hne z

theorem bumpUnseen_congr (g : Nat) (seen1 seen2 : List String)
    (hiff : ∀ i, i ∈ seen1 ↔ i ∈ seen2) :
    ∀ cat : Catalog, bumpUnseen g seen1 cat = bumpUnseen g seen2 cat := by
  intro cat
  induction cat with
  | nil => rfl
  | cons s r ih =>
    show bumpFun g seen1 s :: bumpUnseen g seen1 r
      = bumpFun g seen2 s :: bumpUnseen g seen2 r
    rw [ih]
    congr 1
    unfold bumpFun
    exact if_congr (hiff s.prod.identity) rfl rfl

theorem crawlCatalog_perm (cfg : Config) (now : Nat) (cat : Catalog)
    (cands₁ cands₂ : List Product) (hperm : cands₁.Perm cands₂)
    (hnodup : (cands₁.map Product.identity).Nodup) :
    crawlCatalog cfg now cat cands₁ = crawlCatalog cfg now cat cands₂ := by
  unfold crawlCatalog
  rw [upsertAll_perm now cat cands₁ cands₂ hperm hnodup]
  exact bumpUnseen_congr cfg.grace _ _
    (fun i => (hperm.map Product.identity).mem_iff) _

instance : IsTotal (StoredProduct × Int) RankRel := ⟨by
  intro a b
  unfold RankRel rankLE
  by_cases h1 : a.2 = b.2
  · rw [if_pos h1, if_pos h1.symm]
    by_cases h2 : a.1.updatedAt = b.1.updatedAt
    · rw [if_pos h2, if_pos h2.symm]
      rcases le_total a.1.prod.identity b.1.prod.identity with h | h
      · left; exact decide_eq_true h
      · right; exact decide_eq_true h
    · rw [if_neg h2, if_neg (fun hh => h2 hh.symm)]
      rcases lt_or_gt_of_ne h2 with h | h
      · right; exact decide_eq_true h
      · left; exact decide_eq_true h
  · rw [if_neg h1, if_neg (fun hh => h1 hh.symm)]
    rcases lt_or_gt_of_ne h1 with h | h
    · right; exact decide_eq_true h
    · left; exact decide_eq_true h⟩

instance : IsTrans (StoredProduct × Int) RankRel := ⟨by
  intro a b c hab hbc
  unfold RankRel rankLE at hab hbc ⊢
  by_cases h1 : a.2 = b.2 <;> by_cases h2 : b.2 = c.2
  · rw [if_pos h1] at hab
    rw [if_pos h2] at hbc
    rw [if_pos (h1.trans h2)]
    by_cases u1 : a.1.updatedAt = b.1.updatedAt <;>
      by_cases u2 : b.1.updatedAt = c.1.updatedAt
    · rw [if_pos u1] at hab
      rw [if_pos u2] at hbc
      rw [if_pos (u1.trans u2)]
      exact decide_eq_true
        (le_trans (of_decide_eq_true hab) (of_decide_eq_true hbc))
    · rw [if_pos u1] at hab
      rw [if_neg u2] at hbc
      have l2 : c.1.updatedAt < b.1.updatedAt := of_decide_eq_true hbc
      rw [if_neg (show ¬a.1.updatedAt = c.1.updatedAt by omega)]
      exact decide_eq_true (show c.1.updatedAt < a.1.updatedAt by omega)
    · rw [if_neg u1] at hab
      rw [if_pos u2] at hbc
      have l1 : b.1.updatedAt < a.1.updatedAt := of_decide_eq_true hab
      rw [if_neg (show ¬a.1.updatedAt = c.1.updatedAt by omega)]
      exact decide_eq_true (show c.1.updatedAt < a.1.updatedAt by omega)
    · rw [if_neg u1] at hab
      rw [if_neg u2] at hbc
      have l1 : b.1.updatedAt < a.1.updatedAt := of_decide_eq_true hab
      have l2 : c.1.updatedAt < b.1.updatedAt := of_decide_eq_true hbc
      rw [if_neg (show ¬a.1.updatedAt = c.1.updatedAt by omega)]
      exact decide_eq_true (show c.1.updatedAt < a.1.updatedAt by omega)
  · rw [if_pos h1] at hab
    rw [if_neg h2] at hbc
    have l2 : c.2 < b.2 := of_decide_eq_true hbc
    rw [if_neg (show ¬a.2 = c.2 by omega)]
    exact decide_eq_true (show c.2 < a.2 by omega)
  · rw [if_neg h1] at hab
    rw [if_pos h2] at hbc
    have l1 : b.2 < a.2 := of_decide_eq_true hab
    rw [if_neg (show ¬a.2 = c.2 by omega)]
    exact decide_eq_true (show c.2 < a.2 by omega)
  · rw [if_neg h1] at hab
    rw [if_neg h2] at hbc
    have l1 : b.2 < a.2 := of_decide_eq_true hab
    have l2 : c.2 < b.2 := of_decide_eq_true hbc
    rw [if_neg (show ¬a.2 = c.2 by omega)]
    exact decide_eq_true (show c.2 < a.2 by omega)⟩

/-- C6: for a fixed final catalog state, ranking is deterministic — the
returned list is sorted by the deterministic rank order (score descending,
ties by most-recently-updated, then by stable identity) — and never depends
on upsert order: two crawls upserting the same candidate set in different
orders yield identical search results for every query. -/
theorem ranking_deterministic_order_independent (cfg : Config) (ix : Index)
    (now : Nat) (cat : Catalog) (cands₁ cands₂ : List Product) (f : Filters)
    (q : String) (k : Nat) (hperm : cands₁.Perm cands₂)
    (hnodup : (cands₁.map Product.identity).Nodup) :
    search cfg { catalog := crawlCatalog cfg now cat cands₁, index := ix } f q k
      = search cfg { catalog := crawlCatalog cfg now cat cands₂, index := ix } f q k
    ∧ List.Pairwise RankRel
        (search cfg { catalog := crawlCatalog cfg now cat cands₁, index := ix }
          f q k) := by
  constructor
  · rw [crawlCatalog_perm cfg now cat cands₁ cands₂ hperm hnodup]
  · unfold search
    exact (List.sorted_insertionSort RankRel _).sublist (List.take_sublist _ _)

/-- C6 witness: upserting `[pA, pC]` and `[pC, pA]` yields identical ranked
lists for a concrete query, and that list is sorted by the rank order. -/
theorem ranking_deterministic_order_independent_witness :
    search sampleCfg
        { catalog := crawlCatalog sampleCfg 5 [] [pA, pC], index := [] }
        {} "boots" 3
      = search sampleCfg
        { catalog := crawlCatalog sampleCfg 5 [] [pC, pA], index := [] }
        {} "boots" 3
    ∧ List.Pairwise RankRel
        (search sampleCfg
          { catalog := crawlCatalog sampleCfg 5 [] [pA, pC], index := [] }
          {} "boots" 3) :=
  ranking_deterministic_order_independent sampleCfg [] 5 [] [pA, pC] [pC, pA]
    {} "boots" 3 (List.Perm.swap pC pA []) (by decide)

end CuseAI
